import Mathlib

/-!
# Verification of `podcast-to-youtube` (main.go)

Shallow embedding of the pure logic of `src/main.go`:

* `splitChar` models Go `strings.Split(s, sep)` for a single-character
  separator (the program only ever splits on `"-"` and `","`).
* `Atoi` models Go `strconv.Atoi`: optional leading `'+'` or `'-'`
  followed by one or more ASCII digits; on syntax error it returns
  `(0, some msg)` just as Go returns `(0, err)`.  (Go additionally
  range-checks against the machine `int`; no claim here depends on
  overflow, so values are unbounded `Int`.)
* `parseRange` transcribes the `parseRange` function of `main.go`.
* `selectEpisodes` transcribes the selection loop in `main`.
* `mainAfterFetch` models the control flow of `main` after the feed has
  been fetched: range prompt, selection, confirmation prompt.
* `fetchFeedDecoded` models the post-decode part of `fetchFeed`
  (the `data.Channel[0]` access), with a `panic` constructor standing
  for a Go runtime out-of-range panic as opposed to a returned `error`.
* `buildDescription` / `buildTags` transcribe the video-metadata
  construction in `process` (the HTML sanitizer is an external
  collaborator, taken as an opaque function argument).
-/

/-- Go `strings.Split(s, sep)` for a single-character separator `sep`,
acting on the character list of `s`.  Go returns the (necessarily
nonempty) list of substrings between occurrences of the separator;
`strings.Split("", "-") = [""]`. -/
def splitChar (sep : Char) : List Char → List (List Char)
  | [] => [[]]
  | c :: cs =>
    if c = sep then
      [] :: splitChar sep cs
    else
      match splitChar sep cs with
      | [] => [[c]]
      | p :: ps => (c :: p) :: ps

/-- Numeric value of a list of ASCII digit characters, most significant
first, as Go `strconv.ParseUint` accumulates it. -/
def digitsVal (ds : List Char) : Nat :=
  ds.foldl (fun a c => 10 * a + (c.toNat - 48)) 0

/-- The digits-part of Go `strconv.ParseInt` after the sign has been
stripped: requires a nonempty all-digit string; on failure returns
`(0, some msg)` as Go's `Atoi` returns `(0, err)`. -/
def atoiDigits (sign : Int) (ds : List Char) : Int × Option String :=
  if ds ≠ [] ∧ ds.all Char.isDigit then
    (sign * (digitsVal ds : Int), none)
  else
    (0, some "invalid syntax")

/-- Go `strconv.Atoi` on the character list of the input: strip an
optional leading `'+'` or `'-'`, then parse a nonempty digit string. -/
def Atoi : List Char → Int × Option String
  | [] => (0, some "invalid syntax")
  | c :: cs =>
    if c = '+' then atoiDigits 1 cs
    else if c = '-' then atoiDigits (-1) cs
    else atoiDigits 1 (c :: cs)

/-- Transcription of `parseRange` from `main.go`:

```go
func parseRange(s string) (first, last int, err error) {
    switch ps := strings.Split(s, "-"); len(ps) {
    case 1:
        n, err := strconv.Atoi(ps[0])
        return n, n, err
    case 2:
        from, err := strconv.Atoi(ps[0])
        if err != nil { return 0, 0, err }
        to, err := strconv.Atoi(ps[1])
        return from, to, err
    default:
        return 0, 0, errors.New("only formats supported are n or m-n")
    }
}
```
-/
def parseRange (s : String) : Int × Int × Option String :=
  match splitChar '-' s.data with
  | [p] => ((Atoi p).1, (Atoi p).1, (Atoi p).2)
  | [p, q] =>
    if (Atoi p).2 ≠ none then (0, 0, (Atoi p).2)
    else ((Atoi p).1, (Atoi q).1, (Atoi q).2)
  | _ => (0, 0, some "only formats supported are n or m-n")

-- Basic facts about `splitChar`.

/-- Splitting never yields an empty list of parts. -/
theorem splitChar_ne_nil (sep : Char) (cs : List Char) :
    splitChar sep cs ≠ [] := by
  induction cs with
  | nil => simp [splitChar]
  | cons c cs ih =>
    simp only [splitChar]
    split
    · simp
    · match h : splitChar sep cs with
      | [] => simp
      | p :: ps => simp

/-- A string not containing the separator is returned whole. -/
theorem splitChar_of_not_mem {sep : Char} {cs : List Char}
    (h : sep ∉ cs) : splitChar sep cs = [cs] := by
  induction cs with
  | nil => rfl
  | cons c cs ih =>
    simp only [List.mem_cons, not_or] at h
    have hc : ¬c = sep := fun hc => h.1 hc.symm
    simp only [splitChar, if_neg hc, ih h.2]

/-- Splitting at an explicit separator occurrence. -/
theorem splitChar_append {sep : Char} {ds es : List Char}
    (h : sep ∉ ds) :
    splitChar sep (ds ++ sep :: es) = ds :: splitChar sep es := by
  induction ds with
  | nil => simp [splitChar]
  | cons c cs ih =>
    simp only [List.mem_cons, not_or] at h
    have hc : ¬c = sep := fun hc => h.1 hc.symm
    simp only [List.cons_append, splitChar, if_neg hc, List.append_eq,
      ih h.2]

/-- The number of parts is one more than the number of separators. -/
theorem splitChar_length (sep : Char) (cs : List Char) :
    (splitChar sep cs).length = cs.count sep + 1 := by
  induction cs with
  | nil => simp [splitChar]
  | cons c cs ih =>
    by_cases hc : c = sep
    · subst hc
      simp only [splitChar, if_pos rfl, List.length_cons,
        List.count_cons]
      simp [ih]
    · simp only [splitChar, if_neg hc]
      match h : splitChar sep cs with
      | [] => exact absurd h (splitChar_ne_nil sep cs)
      | p :: ps =>
        rw [h] at ih
        simp only [List.length_cons] at ih ⊢
        rw [List.count_cons]
        simp [hc, ih, fun h : sep = c => hc h.symm]

-- Basic facts about `Atoi`.

/-- A digit character is not a sign or separator character. -/
theorem isDigit_ne (c : Char) (h : c.isDigit) : c ≠ '-' ∧ c ≠ '+' := by
  constructor <;> intro hc <;> subst hc <;> simp [Char.isDigit] at h

/-- `Atoi` on a nonempty all-digit string succeeds with its value. -/
theorem Atoi_digits {ds : List Char} (hne : ds ≠ [])
    (hd : ds.all Char.isDigit) :
    Atoi ds = ((digitsVal ds : Int), none) := by
  match ds with
  | [] => exact absurd rfl hne
  | c :: cs =>
    have hc : c.isDigit := by
      simp only [List.all_cons, Bool.and_eq_true] at hd
      exact hd.1
    have hne' := isDigit_ne c hc
    simp [Atoi, atoiDigits, hne'.1, hne'.2, hd]

/-- `Atoi` accepts an explicit leading plus sign. -/
theorem Atoi_plus {ds : List Char} (hne : ds ≠ [])
    (hd : ds.all Char.isDigit) :
    Atoi ('+' :: ds) = ((digitsVal ds : Int), none) := by
  simp [Atoi, atoiDigits, hne, hd]

/-- A string accepted by `Atoi` contains no `'-'` after its first
character, since all characters past the optional sign are digits. -/
theorem Atoi_empty : Atoi [] = (0, some "invalid syntax") := rfl

-- The data model: the `episode` struct of `main.go`.

/-- The `episode` struct of `main.go` (fields `Title`, `Number`, `Link`,
`Desc`, `MP3`, `Tags`), one entry of the decoded feed. -/
structure Episode where
  Title : String
  Number : Int
  Link : String
  Desc : String
  MP3 : String
  Tags : List String
deriving DecidableEq, Repr

/-- One decoded `item` element of the feed XML, before it is copied into
an `episode` value by `fetchFeed`. -/
structure RawItem where
  title : String
  number : Int
  link : String
  desc : String
  mp3url : String
  category : List String
deriving DecidableEq, Repr

/-- Result of a Go function that can either return normally, return a
Go `error`, or hit a runtime panic (such as an out-of-range slice
index).  A panic is not a returned `error`. -/
inductive GoResult (α : Type) where
  | ok : α → GoResult α
  | goError : String → GoResult α
  | panic : String → GoResult α
deriving DecidableEq, Repr

/-- The part of `fetchFeed` that runs after the XML decoder succeeded:
`main.go` iterates over `data.Channel[0].Item`.  Indexing `Channel[0]`
on a feed with zero `channel` elements is a Go runtime out-of-range
panic, modelled by the `panic` constructor; with at least one channel
the items of the first channel are copied into `episode` records in
document order. -/
def fetchFeedDecoded (channels : List (List RawItem)) :
    GoResult (List Episode) :=
  match channels with
  | [] => GoResult.panic "index out of range"
  | c :: _ =>
    GoResult.ok (c.map fun i =>
      ⟨i.title, i.number, i.link, i.desc, i.mp3url, i.category⟩)

-- Selection and the control flow of `main` after the feed is fetched.

/-- The selection loop of `main`:

```go
var selected []episode
for _, e := range eps {
    if from <= e.Number && e.Number <= to {
        selected = append(selected, e)
    }
}
```
-/
def selectEpisodes (fr lst : Int) : List Episode → List Episode
  | [] => []
  | e :: es =>
    if fr ≤ e.Number ∧ e.Number ≤ lst then
      e :: selectEpisodes fr lst es
    else
      selectEpisodes fr lst es

/-- Outcome of `main` after the feed has been fetched: `exitFail msg`
models `failf(msg)` (print to stderr, `os.Exit(1)`), `declined` models
the plain `return` after a negative publish confirmation (exit status
0), and `proceed sel` models falling through to `authedClient()` and
the per-episode processing loop over `sel`. -/
inductive RunOutcome where
  | exitFail : String → RunOutcome
  | declined : RunOutcome
  | proceed : List Episode → RunOutcome
deriving DecidableEq, Repr

/-- Process exit status implied by a `RunOutcome`: `failf` calls
`os.Exit(1)`; the declined-confirmation `return` ends `main` normally
with status 0; `proceed` continues running (status decided later). -/
def exitStatus : RunOutcome → Option Nat
  | RunOutcome.exitFail _ => some 1
  | RunOutcome.declined => some 0
  | RunOutcome.proceed _ => none

/-- The control flow of `main` (lines 70-96 of `main.go`) after
`fetchFeed` returned `eps`: parse the range answer, select episodes,
fail when none are selected, then read the publish confirmation;
`"Y"`, `"y"` and `""` continue to authentication, anything else
returns. -/
def mainAfterFetch (eps : List Episode)
    (rangeInput confirmInput : String) : RunOutcome :=
  match parseRange rangeInput with
  | (_, _, some _) =>
    RunOutcome.exitFail (rangeInput ++ " is an invalid range")
  | (fr, lst, none) =>
    let selected := selectEpisodes fr lst eps
    if selected.length = 0 then
      RunOutcome.exitFail "no episodes selected"
    else if confirmInput = "Y" ∨ confirmInput = "y" ∨ confirmInput = "" then
      RunOutcome.proceed selected
    else
      RunOutcome.declined

-- Video metadata construction in `process` (lines 248-258 of `main.go`).

/-- Go `strings.Replace(s, "\n", " ", -1)`: with a one-character pattern
and replacement this is a character-wise substitution. -/
def collapseNewlines (s : String) : String :=
  String.mk (s.data.map fun c => if c = '\x0a' then ' ' else c)

/-- The description built in `process`:
`fmt.Sprintf("Original post: %s\n\n", ep.Link) + desc` where `desc` is
the sanitized episode description with newlines replaced by spaces.
The HTML sanitizer (`bluemonday.StrictPolicy().Sanitize`) is an
external collaborator, passed in as an opaque function. -/
def buildDescription (sanitize : String → String) (ep : Episode) :
    String :=
  "Original post: " ++ ep.Link ++ "\x0a\x0a"
    ++ collapseNewlines (sanitize ep.Desc)

/-- The tags built in `process`:
`append(ep.Tags, strings.Split(*tags, ",")...)` where `*tags` is the
comma-separated `-tags` flag value. -/
def buildTags (epTags : List String) (tagsFlag : String) : List String :=
  epTags ++ (splitChar ',' tagsFlag.data).map String.mk

-- Helper lemmas about the selection loop.

/-- Membership in the selection: exactly the in-range episodes. -/
theorem selectEpisodes_mem (fr lst : Int) (eps : List Episode)
    (e : Episode) :
    e ∈ selectEpisodes fr lst eps ↔
      e ∈ eps ∧ fr ≤ e.Number ∧ e.Number ≤ lst := by
  induction eps with
  | nil => simp [selectEpisodes]
  | cons a es ih =>
    by_cases h : fr ≤ a.Number ∧ a.Number ≤ lst
    · simp only [selectEpisodes, if_pos h, List.mem_cons, ih]
      constructor
      · rintro (rfl | ⟨he, hr⟩)
        · exact ⟨Or.inl rfl, h⟩
        · exact ⟨Or.inr he, hr⟩
      · rintro ⟨rfl | he, hr⟩
        · exact Or.inl rfl
        · exact Or.inr ⟨he, hr⟩
    · simp only [selectEpisodes, if_neg h, List.mem_cons, ih]
      constructor
      · rintro ⟨he, hr⟩
        exact ⟨Or.inr he, hr⟩
      · rintro ⟨rfl | he, hr⟩
        · exact absurd hr h
        · exact ⟨he, hr⟩

/-- The selection is a sublist of the feed: feed order is preserved. -/
theorem selectEpisodes_sublist (fr lst : Int) (eps : List Episode) :
    List.Sublist (selectEpisodes fr lst eps) eps := by
  induction eps with
  | nil => simp [selectEpisodes]
  | cons a es ih =>
    by_cases h : fr ≤ a.Number ∧ a.Number ≤ lst
    · simpa [selectEpisodes, if_pos h] using List.Sublist.cons₂ a ih
    · simpa [selectEpisodes, if_neg h] using List.Sublist.cons a ih

/-- An inverted range selects nothing. -/
theorem selectEpisodes_empty_of_lt {fr lst : Int} (h : lst < fr)
    (eps : List Episode) : selectEpisodes fr lst eps = [] := by
  induction eps with
  | nil => rfl
  | cons a es ih =>
    have hn : ¬(fr ≤ a.Number ∧ a.Number ≤ lst) := by
      rintro ⟨h1, h2⟩
      omega
    simp [selectEpisodes, if_neg hn, ih]

/-- A sample episode used in concrete instances: number `n`, fixed
remaining fields. -/
def sampleEp (n : Int) : Episode :=
  ⟨"title", n, "link", "desc", "mp3", []⟩

-- C1: single-number tokens.

/-- C1 counterexample: the claim says every valid signed single-number
token `"N"` parses to `(N, N, nil)`, but `"-5"` (a valid input to Go
`strconv.Atoi`) is first split at its dash into `["", "5"]`, and the
empty first part makes `parseRange` return an error. -/
theorem parseRange_neg_single_cex :
    parseRange "-5" = (0, 0, some "invalid syntax") ∧
      parseRange "-5" ≠ (-5, -5, none) := by
  decide

/-- C1 (amended): for every single-number token that contains no dash —
that is, a nonempty digit string optionally prefixed by `'+'`, exactly
the tokens accepted by `Atoi` that survive the dash-split intact —
`parseRange` returns `(N, N, nil)` where `N` is the token's value. -/
theorem parseRange_single_ok (p : List Char) (hp : '-' ∉ p)
    (he : (Atoi p).2 = none) :
    parseRange (String.mk p) = ((Atoi p).1, (Atoi p).1, none) := by
  have hs : splitChar '-' (String.mk p).data = [p] :=
    splitChar_of_not_mem hp
  simp [parseRange, hs, he]

/-- C1 witness: the token `"41"` parses to `(41, 41, nil)`. -/
theorem parseRange_single_ok_witness : parseRange "41" = (41, 41, none) := by
  have h := parseRange_single_ok ['4', '1'] (by decide) (by decide)
  rw [show ("41" : String) = String.mk ['4', '1'] from rfl, h]
  decide

-- C2: pair tokens.

/-- C2 counterexample: the claim allows signed `N` and `M`, but the
token `"1--2"` (pair `N = 1`, `M = -2`) splits into three parts and is
rejected by `parseRange` instead of producing `(1, -2, nil)`. -/
theorem parseRange_neg_pair_cex :
    parseRange "1--2" =
        (0, 0, some "only formats supported are n or m-n") ∧
      parseRange "1--2" ≠ (1, -2, none) := by
  decide

/-- C2 (amended): for every pair token `"N-M"` whose two parts contain
no dash of their own (nonempty digit strings, optionally `'+'`-prefixed)
and are accepted by `Atoi`, `parseRange` returns `(N, M, nil)` — with no
requirement that `N ≤ M` — and an inverted range `M < N` makes the
selection filter yield the empty selection rather than an error. -/
theorem parseRange_pair_ok (p q : List Char) (hp : '-' ∉ p)
    (hq : '-' ∉ q) (hep : (Atoi p).2 = none) (heq : (Atoi q).2 = none) :
    parseRange (String.mk (p ++ '-' :: q)) =
        ((Atoi p).1, (Atoi q).1, none) ∧
      ∀ (fr lst : Int) (eps : List Episode), lst < fr →
        selectEpisodes fr lst eps = [] := by
  constructor
  · have hs : splitChar '-' (String.mk (p ++ '-' :: q)).data = [p, q] := by
      rw [show (String.mk (p ++ '-' :: q)).data = p ++ '-' :: q from rfl,
        splitChar_append hp, splitChar_of_not_mem hq]
    simp [parseRange, hs, hep, heq]
  · intro fr lst eps h
    exact selectEpisodes_empty_of_lt h eps

/-- C2 witness: `"3-7"` parses to `(3, 7, nil)`, and the inverted
range `5-2` selects nothing from a sample feed. -/
theorem parseRange_pair_ok_witness :
    parseRange "3-7" = (3, 7, none) ∧
      selectEpisodes 5 2 [sampleEp 3] = [] := by
  have h := parseRange_pair_ok ['3'] ['7'] (by decide) (by decide)
    (by decide) (by decide)
  constructor
  · rw [show ("3-7" : String) = String.mk (['3'] ++ '-' :: ['7']) from rfl,
      h.1]
    decide
  · exact h.2 5 2 [sampleEp 3] (by decide)

-- C3: malformed tokens.

/-- C3: every token with more than one dash, or with a part that Go
`strconv.Atoi` rejects (for example `"abc"`, `"1-2-3"`, `""`), makes
`parseRange` return a non-nil error. -/
theorem parseRange_invalid_err (s : String)
    (h : 2 ≤ s.data.count '-' ∨
      ∃ p ∈ splitChar '-' s.data, (Atoi p).2 ≠ none) :
    (parseRange s).2.2 ≠ none := by
  have hlen := splitChar_length '-' s.data
  rcases hl : splitChar '-' s.data with _ | ⟨p, _ | ⟨q, _ | ⟨r, rest⟩⟩⟩
  · exact absurd hl (splitChar_ne_nil '-' s.data)
  · rw [hl] at hlen
    rcases h with h | ⟨b, hb, hbe⟩
    · simp at hlen
      omega
    · rw [hl] at hb
      simp only [List.mem_singleton] at hb
      subst hb
      simp [parseRange, hl, hbe]
  · rw [hl] at hlen
    rcases h with h | ⟨b, hb, hbe⟩
    · simp at hlen
      omega
    · rw [hl] at hb
      by_cases hperr : (Atoi p).2 = none
      · have hbq : b = q := by
          rcases List.mem_cons.mp hb with h1 | h1
          · subst h1
            exact absurd hperr hbe
          · simpa using h1
        subst hbq
        simp [parseRange, hl, hperr, hbe]
      · simp [parseRange, hl, hperr]
  · simp [parseRange, hl]

/-- C3 witness: `"abc"`, `"1-2-3"` and `""` all yield a parse error. -/
theorem parseRange_invalid_err_witness :
    (parseRange "abc").2.2 ≠ none ∧ (parseRange "1-2-3").2.2 ≠ none ∧
      (parseRange "").2.2 ≠ none :=
  ⟨parseRange_invalid_err "abc" (Or.inr (by decide)),
   parseRange_invalid_err "1-2-3" (Or.inl (by decide)),
   parseRange_invalid_err "" (Or.inr (by decide))⟩

-- C10: totality of parseRange.

/-- C10: `parseRange` is total — splitting any string on `"-"` yields at
least one part, so every switch case of the Go function indexes within
bounds, and for every input string `parseRange` returns a triple. -/
theorem parseRange_total (s : String) :
    splitChar '-' s.data ≠ [] ∧
      ∃ fr lst e, parseRange s = (fr, lst, e) :=
  ⟨splitChar_ne_nil '-' s.data,
   (parseRange s).1, (parseRange s).2.1, (parseRange s).2.2, rfl⟩

-- C4: empty feed.

/-- C4: decoding a feed with zero `channel` elements makes `fetchFeed`
hit a runtime out-of-range panic at `data.Channel[0]`; it does not
return an explicit empty-feed `error` value. -/
theorem fetchFeed_empty_channels_panics :
    fetchFeedDecoded [] = GoResult.panic "index out of range" ∧
      ∀ m : String,
        fetchFeedDecoded ([] : List (List RawItem)) ≠ GoResult.goError m :=
  ⟨rfl, fun m h => by simp [fetchFeedDecoded] at h⟩

-- C5: selection semantics.

/-- C5: an episode is selected iff `first ≤ Number ≤ last`; the
selection is a sublist of the feed (feed order preserved); and on a
feed numbered `{1, 2, 3, 5}` the range `2-10` selects `{2, 3, 5}` in
feed order. -/
theorem selection_correct :
    (∀ (fr lst : Int) (eps : List Episode) (e : Episode),
        e ∈ selectEpisodes fr lst eps ↔
          e ∈ eps ∧ fr ≤ e.Number ∧ e.Number ≤ lst) ∧
      (∀ (fr lst : Int) (eps : List Episode),
        List.Sublist (selectEpisodes fr lst eps) eps) ∧
      selectEpisodes 2 10
          [sampleEp 1, sampleEp 2, sampleEp 3, sampleEp 5] =
        [sampleEp 2, sampleEp 3, sampleEp 5] :=
  ⟨selectEpisodes_mem, selectEpisodes_sublist, by decide⟩

-- C6: empty selection aborts the run before authentication.

/-- C6: when the parsed range selects no episode, `main` fails with
`"no episodes selected"` and exit status 1, and never reaches the
authentication step. -/
theorem no_selection_fails (eps : List Episode)
    (rin cin : String) (fr lst : Int)
    (hparse : parseRange rin = (fr, lst, none))
    (hsel : selectEpisodes fr lst eps = []) :
    mainAfterFetch eps rin cin = RunOutcome.exitFail "no episodes selected" ∧
      exitStatus (mainAfterFetch eps rin cin) = some 1 ∧
      ∀ sel, mainAfterFetch eps rin cin ≠ RunOutcome.proceed sel := by
  have hm : mainAfterFetch eps rin cin =
      RunOutcome.exitFail "no episodes selected" := by
    simp [mainAfterFetch, hparse, hsel]
  refine ⟨hm, ?_, ?_⟩
  · rw [hm]
    rfl
  · intro sel h
    rw [hm] at h
    exact absurd h (by simp)

/-- C6 witness: an empty feed with the valid range `"1"` fails with
`"no episodes selected"` at exit status 1. -/
theorem no_selection_fails_witness :
    mainAfterFetch [] "1" "" = RunOutcome.exitFail "no episodes selected" ∧
      exitStatus (mainAfterFetch [] "1" "") = some 1 :=
  ⟨(no_selection_fails [] "1" "" 1 1 (by decide) (by decide)).1,
   (no_selection_fails [] "1" "" 1 1 (by decide) (by decide)).2.1⟩

-- C7: the publish confirmation prompt.

/-- C7: with a valid range and a nonempty selection, exactly the
confirmation inputs `"Y"`, `"y"` and `""` proceed to authentication
and processing; any other input ends the run cleanly with exit
status 0 and no authentication attempt. -/
theorem confirmation_gate (eps : List Episode)
    (rin cin : String) (fr lst : Int)
    (hparse : parseRange rin = (fr, lst, none))
    (hsel : selectEpisodes fr lst eps ≠ []) :
    ((cin = "Y" ∨ cin = "y" ∨ cin = "") →
        mainAfterFetch eps rin cin =
          RunOutcome.proceed (selectEpisodes fr lst eps)) ∧
      ((cin ≠ "Y" ∧ cin ≠ "y" ∧ cin ≠ "") →
        mainAfterFetch eps rin cin = RunOutcome.declined ∧
          exitStatus (mainAfterFetch eps rin cin) = some 0) := by
  have hlen : ¬(selectEpisodes fr lst eps).length = 0 := by
    simpa [List.length_eq_zero] using hsel
  constructor
  · intro hy
    simp [mainAfterFetch, hparse, hlen, hy]
  · intro hn
    have hm : mainAfterFetch eps rin cin = RunOutcome.declined := by
      simp [mainAfterFetch, hparse, hlen, hn.1, hn.2.1, hn.2.2]
    exact ⟨hm, by rw [hm]; rfl⟩

/-- C7 witness: with one selected episode, input `"n"` declines with
exit status 0, and input `"y"` proceeds. -/
theorem confirmation_gate_witness :
    (mainAfterFetch [sampleEp 1] "1" "n" = RunOutcome.declined ∧
        exitStatus (mainAfterFetch [sampleEp 1] "1" "n") = some 0) ∧
      mainAfterFetch [sampleEp 1] "1" "y" =
        RunOutcome.proceed [sampleEp 1] :=
  ⟨(confirmation_gate [sampleEp 1] "1" "n" 1 1 (by decide)
      (by decide)).2 (by decide),
   by
    have h := (confirmation_gate [sampleEp 1] "1" "y" 1 1 (by decide)
      (by decide)).1 (by simp)
    rw [h]
    decide⟩

-- C8: the uploaded description.

/-- C8: the uploaded description is `"Original post: " + Link + "\n\n"`
followed by the sanitized description with every newline replaced by a
space (no newline survives in that suffix); for link `"http://x/1"` and
sanitized description `"Hello world"` it is exactly
`"Original post: http://x/1\n\nHello world"`. -/
theorem description_built :
    (∀ (san : String → String) (ep : Episode),
        buildDescription san ep =
          "Original post: " ++ ep.Link ++ "\x0a\x0a"
            ++ collapseNewlines (san ep.Desc)) ∧
      (∀ d : String, '\x0a' ∉ (collapseNewlines d).data) ∧
      buildDescription (fun _ => "Hello world")
          ⟨"t", 1, "http://x/1", "raw", "m", []⟩ =
        "Original post: http://x/1\x0a\x0aHello world" := by
  refine ⟨fun san ep => rfl, ?_, by decide⟩
  intro d h
  simp only [collapseNewlines, List.mem_map] at h
  rcases h with ⟨c, _, hc⟩
  by_cases hcn : c = '\x0a' <;> simp [hcn] at hc

-- C9: the uploaded tags.

/-- C9: the uploaded tags are the episode's feed categories, in order,
followed by the `-tags` flag value split on commas, in order; with the
default flag value `"podcast,gcppodcast"` the categories `["gcp",
"cloud"]` produce `["gcp", "cloud", "podcast", "gcppodcast"]`. -/
theorem tags_built :
    (∀ (epTags : List String) (tagsFlag : String),
        List.take epTags.length (buildTags epTags tagsFlag) = epTags ∧
          List.drop epTags.length (buildTags epTags tagsFlag) =
            (splitChar ',' tagsFlag.data).map String.mk) ∧
      buildTags ["gcp", "cloud"] "podcast,gcppodcast" =
        ["gcp", "cloud", "podcast", "gcppodcast"] := by
  refine ⟨fun epTags tagsFlag => ⟨?_, ?_⟩, by decide⟩
  · simp [buildTags]
  · simp [buildTags]
